import Mathlib

/-!
Verification of the koneksi backup/restore pipeline.

This file gives a shallow embedding, in Lean, of the parts of the Go
sources that the specification talks about:

  * `pkg/encryption/encryption.go` — chunked AEAD encryption with a
    framed container format and a big-endian incrementing nonce;
  * `pkg/compression/compressor.go` — gzip / zlib / no-op whole-buffer
    compression;
  * `internal/backup` (service file) — the change classifier
    (`needsBackup`), the worker body (`processBackup`) and the state
    update (`updateBackupState`);
  * `internal/monitor/watcher.go` — the restore worker
    (`restoreFile`, `fileExists`, `calculateFileChecksum`);
  * `internal/api/client.go` — the retrying request helper
    (`doRequest`) and the non-retrying `UploadFile`.

External collaborators (the Go standard library's AES-GCM, PBKDF2,
gzip/zlib codecs, the filesystem, and the HTTP transport) are modelled
as explicit function parameters; the properties the Go library
documents for them (AEAD open/seal inversion, ciphertext length,
codec round-trips) appear as named hypotheses of the theorems that
need them.  Bytes are natural numbers, with `< 256` well-formedness
where byte-level overflow matters.
-/

namespace Koneksi

/-! ## Byte-level helpers -/

/-- All entries of a byte list are in range. -/
def BytesWF (l : List Nat) : Prop := ∀ b ∈ l, b < 256

instance : DecidablePred BytesWF := fun l =>
  inferInstanceAs (Decidable (∀ b ∈ l, b < 256))

/-- Little-endian value of a byte list (helper for reasoning about the
big-endian nonce, which the code walks from its last byte). -/
def toNatLE : List Nat → Nat
  | [] => 0
  | b :: rest => b + 256 * toNatLE rest

/-- Big-endian value of a byte list, as the Go code orders bytes. -/
def toNatBE (l : List Nat) : Nat := toNatLE l.reverse

theorem toNatLE_lt {l : List Nat} (h : BytesWF l) : toNatLE l < 256 ^ l.length := by
  induction l with
  | nil => simp [toNatLE]
  | cons b rest ih =>
    have hb : b < 256 := h b (List.mem_cons_self b rest)
    have hr : BytesWF rest := fun x hx => h x (List.mem_cons_of_mem b hx)
    have := ih hr
    simp only [toNatLE, List.length_cons, pow_succ]
    calc b + 256 * toNatLE rest < 256 + 256 * toNatLE rest := by omega
    _ ≤ 256 * (toNatLE rest + 1) := by ring_nf; omega
    _ ≤ 256 * 256 ^ rest.length := by
        have : toNatLE rest + 1 ≤ 256 ^ rest.length := this
        exact Nat.mul_le_mul_left 256 this
    _ = 256 ^ rest.length * 256 := by ring

theorem toNatBE_lt {l : List Nat} (h : BytesWF l) : toNatBE l < 256 ^ l.length := by
  have : BytesWF l.reverse := fun b hb => h b (List.mem_reverse.mp hb)
  simpa [toNatBE] using toNatLE_lt this

end Koneksi

namespace Koneksi.encryption

/-!
## `pkg/encryption/encryption.go`

```go
// incrementNonce increments the nonce for the next chunk
func incrementNonce(nonce []byte) {
    for i := len(nonce) - 1; i >= 0; i-- {
        nonce[i]++
        if nonce[i] != 0 {
            break
        }
    }
}
```
The loop walks from the last (least significant) byte towards the
first, incrementing modulo 256 and stopping at the first byte that did
not wrap.  We model it by incrementing the reversed list. -/

/-- Increment of a little-endian byte list with carry; mirrors the Go
loop run on the reversed slice. -/
def incBytesLE : List Nat → List Nat
  | [] => []
  | b :: rest =>
    if (b + 1) % 256 = 0 then 0 :: incBytesLE rest
    else ((b + 1) % 256) :: rest

/-- `incrementNonce` from `encryption.go` (the Go code mutates the
slice in place; here the new nonce value is returned). -/
def incrementNonce (nonce : List Nat) : List Nat :=
  (incBytesLE nonce.reverse).reverse

@[simp] theorem length_incBytesLE (l : List Nat) :
    (incBytesLE l).length = l.length := by
  induction l with
  | nil => rfl
  | cons b rest ih =>
    by_cases h : (b + 1) % 256 = 0 <;> simp [incBytesLE, h, ih]

@[simp] theorem length_incrementNonce (n : List Nat) :
    (incrementNonce n).length = n.length := by
  simp [incrementNonce]

theorem bytesWF_incBytesLE {l : List Nat} (h : BytesWF l) :
    BytesWF (incBytesLE l) := by
  induction l with
  | nil => exact h
  | cons b rest ih =>
    have hr : BytesWF rest := fun x hx => h x (List.mem_cons_of_mem b hx)
    by_cases hc : (b + 1) % 256 = 0
    · intro x hx
      simp only [incBytesLE, hc, if_pos] at hx
      rcases List.mem_cons.mp hx with h0 | h0
      · omega
      · exact ih hr x h0
    · intro x hx
      simp only [incBytesLE, hc, if_neg, not_false_iff] at hx
      rcases List.mem_cons.mp hx with h0 | h0
      · have := Nat.mod_lt (b + 1) (show 0 < 256 by norm_num)
        omega
      · exact hr x h0

theorem bytesWF_incrementNonce {n : List Nat} (h : BytesWF n) :
    BytesWF (incrementNonce n) := by
  intro b hb
  have : b ∈ incBytesLE n.reverse := List.mem_reverse.mp hb
  exact bytesWF_incBytesLE (fun x hx => h x (List.mem_reverse.mp hx)) b this

theorem toNatLE_incBytesLE {l : List Nat} (h : BytesWF l) :
    toNatLE (incBytesLE l) = (toNatLE l + 1) % 256 ^ l.length := by
  induction l with
  | nil => rfl
  | cons b rest ih =>
    have hb : b < 256 := h b (List.mem_cons_self b rest)
    have hr : BytesWF rest := fun x hx => h x (List.mem_cons_of_mem b hx)
    by_cases hc : (b + 1) % 256 = 0
    · -- the byte wrapped to zero: b = 255 and the carry propagates
      have hb255 : b = 255 := by omega
      simp only [incBytesLE, hc, if_pos, toNatLE, ih hr, hb255,
        List.length_cons, pow_succ]
      have h1 : (255:Nat) + 256 * toNatLE rest + 1 = 256 * (toNatLE rest + 1) := by ring
      rw [h1, Nat.mul_comm (256 ^ rest.length) 256, Nat.mul_mod_mul_left]
      omega
    · -- no wrap: b < 255, the tail is untouched
      have hb' : b + 1 < 256 := by omega
      have hmod : (b + 1) % 256 = b + 1 := Nat.mod_eq_of_lt hb'
      simp only [incBytesLE, hc, if_neg, not_false_iff, toNatLE, hmod,
        List.length_cons, pow_succ]
      have hlt : b + 256 * toNatLE rest + 1 < 256 ^ rest.length * 256 := by
        have := toNatLE_lt hr
        calc b + 256 * toNatLE rest + 1 < 255 + 256 * toNatLE rest + 1 := by omega
        _ = 256 * (toNatLE rest + 1) := by ring
        _ ≤ 256 * 256 ^ rest.length := Nat.mul_le_mul_left 256 this
        _ = 256 ^ rest.length * 256 := by ring
      rw [Nat.mod_eq_of_lt hlt]
      ring

theorem toNatBE_incrementNonce {n : List Nat} (h : BytesWF n) :
    toNatBE (incrementNonce n) = (toNatBE n + 1) % 256 ^ n.length := by
  have hrev : BytesWF n.reverse := fun x hx => h x (List.mem_reverse.mp hx)
  simp only [incrementNonce, toNatBE, List.reverse_reverse]
  rw [toNatLE_incBytesLE hrev, List.length_reverse]

/-- The nonce the encryption loop uses for the `i`-th chunk (0-indexed):
`i` applications of `incrementNonce` to the random nonce base. -/
def nonceAt (base : List Nat) (i : Nat) : List Nat :=
  incrementNonce^[i] base

@[simp] theorem nonceAt_zero (base : List Nat) : nonceAt base 0 = base := rfl

theorem nonceAt_succ (base : List Nat) (i : Nat) :
    nonceAt base (i + 1) = incrementNonce (nonceAt base i) :=
  Function.iterate_succ_apply' incrementNonce i base

theorem nonceAt_succ_left (base : List Nat) (i : Nat) :
    nonceAt base (i + 1) = nonceAt (incrementNonce base) i :=
  Function.iterate_succ_apply incrementNonce i base

theorem length_nonceAt (base : List Nat) (i : Nat) :
    (nonceAt base i).length = base.length := by
  induction i with
  | zero => rfl
  | succ i ih => rw [nonceAt_succ, length_incrementNonce, ih]

theorem bytesWF_nonceAt {base : List Nat} (h : BytesWF base) (i : Nat) :
    BytesWF (nonceAt base i) := by
  induction i with
  | zero => exact h
  | succ i ih => rw [nonceAt_succ]; exact bytesWF_incrementNonce ih

theorem toNatBE_nonceAt {base : List Nat} (h : BytesWF base) (i : Nat) :
    toNatBE (nonceAt base i) = (toNatBE base + i) % 256 ^ base.length := by
  induction i with
  | zero =>
    simp only [nonceAt_zero, Nat.add_zero]
    exact (Nat.mod_eq_of_lt (toNatBE_lt h)).symm
  | succ i ih =>
    rw [nonceAt_succ, toNatBE_incrementNonce (bytesWF_nonceAt h i),
      length_nonceAt, ih, Nat.mod_add_mod, Nat.add_assoc]

/-!
### `EncryptFile` / `DecryptFile` container format

`EncryptFile` writes `salt(32) ‖ nonce(12)` and then, for every
4096-byte window of the plaintext (the last may be shorter), a 4-byte
big-endian ciphertext length followed by `gcm.Seal` of the window; the
nonce is incremented after every chunk.  AES-GCM itself is an external
primitive: it enters as the function parameters `aeadSeal`/`aeadOpen`,
and PBKDF2 as `kdf`. -/

/-- The 4-byte big-endian length prefix written by `EncryptFile`:
`byte(n>>24), byte(n>>16), byte(n>>8), byte(n)`. -/
def be32 (n : Nat) : List Nat :=
  [n / 2 ^ 24 % 256, n / 2 ^ 16 % 256, n / 2 ^ 8 % 256, n % 256]

@[simp] theorem length_be32 (n : Nat) : (be32 n).length = 4 := rfl

theorem bytesWF_be32 (n : Nat) : BytesWF (be32 n) := by
  intro b hb
  simp only [be32, List.mem_cons, List.not_mem_nil, or_false] at hb
  rcases hb with h | h | h | h <;>
    simp [h, Nat.mod_lt _ (show 0 < 256 by norm_num)]

/-- `DecryptFile` reassembles the chunk size with
`int(b0)<<24 | int(b1)<<16 | int(b2)<<8 | int(b3)`. -/
def toNat4 (b0 b1 b2 b3 : Nat) : Nat :=
  ((b0 <<< 24 ||| b1 <<< 16) ||| b2 <<< 8) ||| b3

theorem lor_shift_eq_add {a b k : Nat} (h : b < 2 ^ k) :
    a <<< k ||| b = a * 2 ^ k + b := by
  rw [Nat.shiftLeft_eq, Nat.mul_comm a (2 ^ k)]
  exact (Nat.mul_add_lt_is_or h a).symm

theorem toNat4_eq_add {b0 b1 b2 b3 : Nat} (h1 : b1 < 256)
    (h2 : b2 < 256) (h3 : b3 < 256) :
    toNat4 b0 b1 b2 b3 = b0 * 2 ^ 24 + b1 * 2 ^ 16 + b2 * 2 ^ 8 + b3 := by
  have hassoc : toNat4 b0 b1 b2 b3 =
      b0 <<< 24 ||| (b1 <<< 16 ||| (b2 <<< 8 ||| b3)) := by
    simp [toNat4, Nat.lor_assoc]
  have e1 : b2 <<< 8 ||| b3 = b2 * 2 ^ 8 + b3 :=
    lor_shift_eq_add (by norm_num at h3 ⊢; omega)
  have lt1 : b2 * 2 ^ 8 + b3 < 2 ^ 16 := by norm_num at h2 h3 ⊢; omega
  have e2 : b1 <<< 16 ||| (b2 * 2 ^ 8 + b3) = b1 * 2 ^ 16 + (b2 * 2 ^ 8 + b3) :=
    lor_shift_eq_add lt1
  have lt2 : b1 * 2 ^ 16 + (b2 * 2 ^ 8 + b3) < 2 ^ 24 := by
    norm_num at h1 lt1 ⊢; omega
  have e3 : b0 <<< 24 ||| (b1 * 2 ^ 16 + (b2 * 2 ^ 8 + b3)) =
      b0 * 2 ^ 24 + (b1 * 2 ^ 16 + (b2 * 2 ^ 8 + b3)) :=
    lor_shift_eq_add lt2
  rw [hassoc, e1, e2, e3]
  ring

/-- Reading back a length prefix recovers the length (chunk ciphertext
lengths are far below `2^32`). -/
theorem toNat4_be32 {n : Nat} (h : n < 2 ^ 32) :
    toNat4 (n / 2 ^ 24 % 256) (n / 2 ^ 16 % 256) (n / 2 ^ 8 % 256) (n % 256) = n := by
  rw [toNat4_eq_add (Nat.mod_lt _ (by norm_num))
    (Nat.mod_lt _ (by norm_num)) (Nat.mod_lt _ (by norm_num))]
  omega

/-- The chunk size read from the first four bytes of a stream. -/
def toNat4L (l : List Nat) : Nat :=
  toNat4 (l.getD 0 0) (l.getD 1 0) (l.getD 2 0) (l.getD 3 0)

theorem toNat4L_be32 {n : Nat} (h : n < 2 ^ 32) : toNat4L (be32 n) = n := by
  simpa [toNat4L, be32] using toNat4_be32 h

/-- `EncryptFile` reads the plaintext in 4096-byte windows; the final
window may be shorter.  (`inputFile.Read` fills the whole 4096-byte
buffer on a regular file except at the end, and the loop stops at the
first zero-length read.) -/
def chunkList (data : List Nat) : List (List Nat) :=
  if hd : data = [] then []
  else data.take 4096 :: chunkList (data.drop 4096)
termination_by data.length
decreasing_by
  simp only [List.length_drop]
  have : 0 < data.length := List.length_pos.mpr hd
  omega

theorem chunkList_cons {data : List Nat} (h : data ≠ []) :
    chunkList data = data.take 4096 :: chunkList (data.drop 4096) := by
  rw [chunkList, dif_neg h]

theorem chunkList_flatten (data : List Nat) : (chunkList data).flatten = data := by
  have H : ∀ n (d : List Nat), d.length ≤ n → (chunkList d).flatten = d := by
    intro n
    induction n with
    | zero =>
      intro d hd
      have : d = [] := List.eq_nil_of_length_eq_zero (by omega)
      simp [this, chunkList]
    | succ n ih =>
      intro d hd
      rw [chunkList]
      by_cases h : d = []
      · simp [h]
      · rw [dif_neg h, List.flatten_cons,
          ih (d.drop 4096) (by simp only [List.length_drop]; omega),
          List.take_append_drop]
  exact H data.length data le_rfl

theorem chunkList_chunk_le {data : List Nat} :
    ∀ c ∈ chunkList data, c.length ≤ 4096 := by
  have H : ∀ n (d : List Nat), d.length ≤ n →
      ∀ c ∈ chunkList d, c.length ≤ 4096 := by
    intro n
    induction n with
    | zero =>
      intro d hd c hc
      have : d = [] := List.eq_nil_of_length_eq_zero (by omega)
      rw [this, chunkList] at hc
      simp at hc
    | succ n ih =>
      intro d hd c hc
      rw [chunkList] at hc
      by_cases h : d = []
      · rw [dif_pos h] at hc; simp at hc
      · rw [dif_neg h] at hc
        rcases List.mem_cons.mp hc with h0 | h0
        · subst h0
          simp [List.length_take]
        · exact ih (d.drop 4096) (by simp only [List.length_drop]; omega) c h0
  exact H data.length data le_rfl

section AEAD

-- AES-256-GCM `Seal` from the Go standard library, as an opaque
-- primitive: `aeadSeal key nonce plaintext = ciphertext`.
variable (aeadSeal : List Nat → List Nat → List Nat → List Nat)

-- AES-256-GCM `Open`: `none` models the authentication-failure error
-- return.
variable (aeadOpen : List Nat → List Nat → List Nat → Option (List Nat))

-- `pbkdf2.Key([]byte(password), salt, 100000, 32, sha256.New)`, as an
-- opaque key-derivation primitive.
variable (kdf : String → List Nat → List Nat)

/-- The chunk loop of `EncryptFile`: for each window emit a 4-byte
big-endian ciphertext length and the ciphertext, incrementing the
nonce after each chunk. -/
def sealFrames (key : List Nat) : List Nat → List (List Nat) → List Nat
  | _, [] => []
  | nonce, c :: cs =>
    be32 (aeadSeal key nonce c).length ++
      (aeadSeal key nonce c ++ sealFrames key (incrementNonce nonce) cs)

/-- `Encryptor.EncryptFile`: output is `salt ‖ nonce ‖ framed chunks`,
with the key derived from the password and the fresh salt.  The random
salt and nonce base are inputs here (the Go code draws them from
`crypto/rand`). -/
def encryptFile (password : String) (salt nonce data : List Nat) : List Nat :=
  salt ++ (nonce ++ sealFrames aeadSeal (kdf password salt) nonce (chunkList data))

/-- The chunk loop of `Encryptor.DecryptFile`: read a 4-byte length,
then that many ciphertext bytes, open with the current nonce, then
advance the nonce.  Clean end of input before a length prefix ends the
loop successfully; any of the Go error returns is `none`. -/
def decryptLoop (key : List Nat) (nonce : List Nat) (s : List Nat) : Option (List Nat) :=
  if h0 : s.length = 0 then some []
  else if h4 : s.length < 4 then none
  else if s.length - 4 < toNat4L (s.take 4) then none
  else
    match aeadOpen key nonce ((s.drop 4).take (toNat4L (s.take 4))) with
    | none => none
    | some p =>
      (decryptLoop key (incrementNonce nonce) ((s.drop 4).drop (toNat4L (s.take 4)))).map
        (p ++ ·)
termination_by s.length
decreasing_by
  simp only [List.length_drop]
  omega

/-- `Encryptor.DecryptFile`: read the 32-byte salt, derive the key,
read the 12-byte nonce base, then run the chunk loop on the remaining
bytes. -/
def decryptFile (password : String) (s : List Nat) : Option (List Nat) :=
  if s.length < 44 then none
  else
    decryptLoop aeadOpen (kdf password (s.take 32)) ((s.drop 32).take 12)
      ((s.drop 32).drop 12)

/-- One step of the decrypt loop on a well-formed frame: read the
length prefix, open exactly the framed ciphertext, and continue on the
remainder with the incremented nonce. -/
theorem decryptLoop_frame (key nonce e rest : List Nat) (heLt : e.length < 2 ^ 32) :
    decryptLoop aeadOpen key nonce (be32 e.length ++ (e ++ rest)) =
      match aeadOpen key nonce e with
      | none => none
      | some p =>
        (decryptLoop aeadOpen key (incrementNonce nonce) rest).map (p ++ ·) := by
  have htake : ((be32 e.length ++ (e ++ rest)).take 4) = be32 e.length :=
    List.take_left' (length_be32 _)
  have hdrop : ((be32 e.length ++ (e ++ rest)).drop 4) = e ++ rest :=
    List.drop_left' (length_be32 _)
  have hlen : (be32 e.length ++ (e ++ rest)).length =
      4 + (e.length + rest.length) := by
    simp [List.length_append]
  rw [decryptLoop, dif_neg (by omega), dif_neg (by omega), htake, hdrop,
    toNat4L_be32 heLt, if_neg (by omega), List.take_left, List.drop_left]

/-- Decrypting the framed chunk stream produced by the encryption loop
recovers the concatenation of the plaintext windows, given the Go
library's AEAD contract (`Open` inverts `Seal`; GCM ciphertexts are 16
bytes longer than their plaintexts). -/
theorem decryptLoop_sealFrames (key : List Nat)
    (hOpen : ∀ n p, aeadOpen key n (aeadSeal key n p) = some p)
    (hLen : ∀ n p, (aeadSeal key n p).length = p.length + 16) :
    ∀ (cs : List (List Nat)) (nonce : List Nat), (∀ c ∈ cs, c.length ≤ 4096) →
      decryptLoop aeadOpen key nonce (sealFrames aeadSeal key nonce cs) =
        some cs.flatten := by
  intro cs
  induction cs with
  | nil =>
    intro nonce _
    rw [sealFrames, decryptLoop]
    simp
  | cons c cs ih =>
    intro nonce hle
    have hcs : ∀ x ∈ cs, x.length ≤ 4096 := fun x hx => hle x (List.mem_cons_of_mem c hx)
    have heLt : (aeadSeal key nonce c).length < 2 ^ 32 := by
      have h1 := hLen nonce c
      have h2 := hle c (List.mem_cons_self c cs)
      omega
    rw [sealFrames, decryptLoop_frame aeadOpen key nonce _ _ heLt,
      hOpen nonce c, ih (incrementNonce nonce) hcs]
    simp [List.flatten_cons]

/-- Byte-exact inversion of the encrypted container, for any plaintext
(including the empty one), any 32-byte salt and 12-byte nonce base,
under the AEAD contract for the derived key. -/
theorem decryptFile_encryptFile (password : String) (salt nonce data : List Nat)
    (hsalt : salt.length = 32) (hnonce : nonce.length = 12)
    (hOpen : ∀ n p, aeadOpen (kdf password salt) n (aeadSeal (kdf password salt) n p) = some p)
    (hLen : ∀ n p, (aeadSeal (kdf password salt) n p).length = p.length + 16) :
    decryptFile aeadOpen kdf password (encryptFile aeadSeal kdf password salt nonce data) =
      some data := by
  have hdrop32 : ((salt ++ (nonce ++
      sealFrames aeadSeal (kdf password salt) nonce (chunkList data))).drop 32) =
      nonce ++ sealFrames aeadSeal (kdf password salt) nonce (chunkList data) :=
    List.drop_left' hsalt
  have htake32 : ((salt ++ (nonce ++
      sealFrames aeadSeal (kdf password salt) nonce (chunkList data))).take 32) = salt :=
    List.take_left' hsalt
  rw [encryptFile, decryptFile, if_neg (by simp [List.length_append, hsalt, hnonce]; omega),
    htake32, hdrop32, List.take_left' hnonce, List.drop_left' hnonce,
    decryptLoop_sealFrames aeadSeal aeadOpen (kdf password salt) hOpen hLen
      (chunkList data) nonce chunkList_chunk_le,
    chunkList_flatten]

/-- The sequential chunk loop of `EncryptFile`, written by chunk index:
the `i`-th window (0-indexed) is sealed with `nonceAt base i`, i.e. the
nonce base incremented `i` times. -/
theorem sealFrames_eq_mapIdx (key : List Nat) :
    ∀ (cs : List (List Nat)) (base : List Nat),
      sealFrames aeadSeal key base cs =
        (cs.mapIdx (fun i c =>
          be32 (aeadSeal key (nonceAt base i) c).length ++
            aeadSeal key (nonceAt base i) c)).flatten := by
  intro cs
  induction cs with
  | nil => intro base; rw [sealFrames]; simp
  | cons c cs ih =>
    intro base
    rw [sealFrames, List.mapIdx_cons, List.flatten_cons, ih (incrementNonce base)]
    simp only [nonceAt_zero, List.append_assoc, nonceAt_succ_left]

end AEAD

end Koneksi.encryption

namespace Koneksi.compression

/-!
## `pkg/compression/compressor.go`

`GzipCompressor`/`ZlibCompressor` delegate whole-buffer encode/decode
to the Go standard library codecs (`compress/gzip`, `compress/zlib`),
which enter as function parameters; `NoOpCompressor` is the identity.
-/

/-- The three `Compressor` implementations, with their level field. -/
inductive Compressor
  | gzip (level : Int)
  | zlib (level : Int)
  | noop
deriving DecidableEq

section Codec

-- `gzip.NewWriterLevel(...).Write/Close` on a whole buffer.
variable (gzipWrite : Int → List Nat → List Nat)
-- `gzip.NewReader` + `io.ReadAll`; `none` models the error returns.
variable (gzipRead : List Nat → Option (List Nat))
-- `zlib.NewWriterLevel(...).Write/Close` on a whole buffer.
variable (zlibWrite : Int → List Nat → List Nat)
-- `zlib.NewReader` + `io.ReadAll`.
variable (zlibRead : List Nat → Option (List Nat))

/-- `NewCompressor`: select the codec by format string, clamping an
out-of-range level to the default (`-1`); unknown formats error. -/
def NewCompressor (format : String) (level : Int) : Option Compressor :=
  if format = "gzip" then
    some (.gzip (if level < -1 ∨ level > 9 then -1 else level))
  else if format = "zlib" then
    some (.zlib (if level < -1 ∨ level > 9 then -1 else level))
  else if format = "none" ∨ format = "" then some .noop
  else none

/-- `Compress` of the selected implementation. -/
def Compress : Compressor → List Nat → List Nat
  | .gzip lv, d => gzipWrite lv d
  | .zlib lv, d => zlibWrite lv d
  | .noop, d => d

/-- `Decompress` of the selected implementation (`none` is the error
return of the library readers). -/
def Decompress : Compressor → List Nat → Option (List Nat)
  | .gzip _, d => gzipRead d
  | .zlib _, d => zlibRead d
  | .noop, d => some d

/-- Whole-buffer compression round-trips exactly for every
implementation, given the Go codec contracts. -/
theorem Decompress_Compress
    (hGz : ∀ lv d, gzipRead (gzipWrite lv d) = some d)
    (hZl : ∀ lv d, zlibRead (zlibWrite lv d) = some d)
    (c : Compressor) (d : List Nat) :
    Decompress gzipRead zlibRead c (Compress gzipWrite zlibWrite c d) = some d := by
  cases c with
  | gzip lv => exact hGz lv d
  | zlib lv => exact hZl lv d
  | noop => rfl

end Codec

end Koneksi.compression

namespace Koneksi.backup

/-!
## `internal/backup` service: classifier, worker body, state update

The service's mutable `backupState` map is threaded explicitly; time
(`time.Now()`) is an abstract instant `now`; the filesystem, checksum
computation, compression helper and upload client are function
parameters.  The queue between `ProcessChange` and the worker loop is
modelled as immediate execution of the admitted task (the capacity-1000
channel with its drop-when-full branch is not at issue in the claims
settled here).
-/

/-- `FileBackupState` from the service file. -/
structure FileBackupState where
  lastBackup : Nat
  lastChecksum : String
  backupCount : Nat
  status : String
deriving DecidableEq

/-- `monitor.FileChange`, the change event consumed by `ProcessChange`. -/
structure FileChange where
  path : String
  operation : String
  timestamp : Nat
  size : Int
  isDir : Bool

/-- `BackupTask`, derived 1:1 from an admitted change. -/
structure BackupTask where
  filePath : String
  operation : String
  timestamp : Nat
  size : Int
  isDir : Bool

/-- `report.BackupResult` as recorded through `reporter.AddResult`. -/
structure BackupResult where
  filePath : String
  fileID : String
  operation : String
  success : Bool
  error : Option String
  size : Int
  compressedSize : Int
  checksum : String
  compressed : Bool
deriving DecidableEq

/-- `database.BackupRecord` as written through `db.InsertBackupRecord`. -/
structure BackupRecord where
  filePath : String
  fileID : String
  checksum : String
  originalSize : Int
  compressedSize : Int
  isCompressed : Bool
  status : String
  operation : String
deriving DecidableEq

/-- The in-memory `backupState` map (`nil` entry = path absent). -/
def StateMap : Type := String → Option FileBackupState

/-- Everything one `ProcessChange`/`processBackup` run produces: the
new state map, the reporter results, the number of `UploadFile` calls
and the database records, in order. -/
structure Outcome where
  state : StateMap
  results : List BackupResult
  uploads : Nat
  dbRecords : List BackupRecord

section Service

-- `os.Stat(path)` succeeding (file currently exists).
variable (statExists : String → Bool)
-- `calculateChecksum`: SHA-256 hex digest of the file, `none` on error.
variable (checksumOf : String → Option String)
-- `os.Open` + read: current file content, `none` on open failure.
variable (openRead : String → Option (List Nat))
-- `compression.CompressFile` with the service's compressor.
variable (compressFile : List Nat → Option (List Nat))
-- `client.UploadFile(path, data, ...)`: `FileID` on success.
variable (upload : String → List Nat → Option String)

/-- `Service.needsBackup`: unconditional accept for create/modify;
otherwise reject when the path no longer exists on disk, then accept
iff no state is recorded or the recorded status is `failed`. -/
def needsBackup (st : StateMap) (filePath operation : String) : Bool :=
  if operation = "create" ∨ operation = "modify" then true
  else if ¬ statExists filePath then false
  else
    match st filePath with
    | none => true
    | some s => s.status = "failed"

/-- `Service.updateBackupState`: set status and backup time; overwrite
the stored checksum when a non-empty one is passed; bump the backup
count only on `success`. -/
def updateBackupState (now : Nat) (st : StateMap) (filePath status checksum : String) :
    StateMap :=
  fun p =>
    if p = filePath then
      some { lastBackup := now
             lastChecksum :=
               if checksum ≠ "" then checksum
               else ((st filePath).getD ⟨0, "", 0, ""⟩).lastChecksum
             backupCount :=
               if status = "success" then ((st filePath).getD ⟨0, "", 0, ""⟩).backupCount + 1
               else ((st filePath).getD ⟨0, "", 0, ""⟩).backupCount
             status := status }
    else st p

/-- The tail of `Service.processBackup` from the `UploadFile` call on:
on success, mark the state `success` with the new checksum, record a
success result and a database record; on failure, mark the state
`failed` (also storing the new checksum) and record the failure. -/
def uploadStage (now : Nat) (compressionOn : Bool) (st : StateMap) (task : BackupTask)
    (ck : String) (data : List Nat) (uploadSize resCompressedSize : Int) : Outcome :=
  match upload task.filePath data with
  | none =>
    { state := updateBackupState now st task.filePath "failed" ck
      results := [{ filePath := task.filePath, fileID := "", operation := task.operation,
                    success := false, error := some "failed to upload file",
                    size := task.size, compressedSize := resCompressedSize,
                    checksum := ck, compressed := compressionOn }]
      uploads := 1
      dbRecords := [] }
  | some fid =>
    { state := updateBackupState now st task.filePath "success" ck
      results := [{ filePath := task.filePath, fileID := fid, operation := task.operation,
                    success := true, error := none,
                    size := task.size, compressedSize := resCompressedSize,
                    checksum := ck, compressed := compressionOn }]
      uploads := 1
      dbRecords := [{ filePath := task.filePath, fileID := fid, checksum := ck,
                      originalSize := task.size, compressedSize := uploadSize,
                      isCompressed := compressionOn, status := "success",
                      operation := task.operation }] }

/-- `Service.processBackup`: the delete special case, checksum
computation, the unchanged-checksum skip, open, optional compression,
then the upload stage.  Every failure is converted into a recorded
result; nothing escapes the worker. -/
def processBackup (now : Nat) (compressionOn : Bool) (st : StateMap) (task : BackupTask) :
    Outcome :=
  if task.operation = "delete" then
    { state := updateBackupState now st task.filePath "deleted" ""
      results := [{ filePath := task.filePath, fileID := "", operation := task.operation,
                    success := true, error := none, size := task.size,
                    compressedSize := 0, checksum := "", compressed := compressionOn }]
      uploads := 0
      dbRecords := [] }
  else
    match checksumOf task.filePath with
    | none =>
      { state := st
        results := [{ filePath := task.filePath, fileID := "", operation := task.operation,
                      success := false, error := some "failed to calculate checksum",
                      size := task.size, compressedSize := 0, checksum := "",
                      compressed := compressionOn }]
        uploads := 0
        dbRecords := [] }
    | some ck =>
      if (st task.filePath).any (fun s => s.lastChecksum = ck) then
        { state := st, results := [], uploads := 0, dbRecords := [] }
      else
        match openRead task.filePath with
        | none =>
          { state := st
            results := [{ filePath := task.filePath, fileID := "", operation := task.operation,
                          success := false, error := some "failed to open file",
                          size := task.size, compressedSize := 0, checksum := ck,
                          compressed := compressionOn }]
            uploads := 0
            dbRecords := [] }
        | some content =>
          if compressionOn then
            match compressFile content with
            | none =>
              { state := st
                results := [{ filePath := task.filePath, fileID := "",
                              operation := task.operation, success := false,
                              error := some "failed to compress file",
                              size := task.size, compressedSize := 0, checksum := ck,
                              compressed := compressionOn }]
                uploads := 0
                dbRecords := [] }
            | some cd =>
              uploadStage upload now compressionOn st task ck cd
                (Int.ofNat cd.length) (Int.ofNat cd.length)
          else
            uploadStage upload now compressionOn st task ck content task.size 0

/-- `Service.ProcessChange` followed by the worker executing the
admitted task: directories, oversize files and events rejected by
`needsBackup` produce no task; an admitted task runs `processBackup`. -/
def ProcessChange (now : Nat) (compressionOn : Bool) (maxFileSize : Int)
    (st : StateMap) (change : FileChange) : Outcome :=
  if change.isDir then { state := st, results := [], uploads := 0, dbRecords := [] }
  else if maxFileSize < change.size then
    { state := st, results := [], uploads := 0, dbRecords := [] }
  else if ¬ needsBackup statExists st change.path change.operation then
    { state := st, results := [], uploads := 0, dbRecords := [] }
  else
    processBackup checksumOf openRead compressFile upload now compressionOn st
      { filePath := change.path, operation := change.operation,
        timestamp := change.timestamp, size := change.size, isDir := change.isDir }

end Service

end Koneksi.backup

namespace Koneksi.monitor

/-!
## `internal/monitor/watcher.go`: the restore worker

`RestoreService.restoreFile` per manifest entry: skip when
`fileExists(targetPath, entry.Checksum)` holds, otherwise download and
write the received bytes.  `calculateFileChecksum` is embedded exactly
as the source has it: it returns `("", nil)` (its body is a stub whose
comment says the SHA-256 computation was "omitted for brevity").
-/

/-- `FileManifestEntry` from `watcher.go`. -/
structure FileManifestEntry where
  filePath : String
  fileID : String
  size : Int
  checksum : String
  backupTime : Nat
  permissions : Nat
  compressed : Bool

/-- `filepath.Base` for the paths exercised here: the last
slash-separated component (Go's extra handling of empty paths and
trailing slashes is not hit by the inputs in this file). -/
def baseName (path : String) : String :=
  (path.splitOn "/").getLastD path

/-- `RestoreService.calculateFileChecksum`, verbatim from the source:
the body is `return "", nil` — the digest is never computed. -/
def calculateFileChecksum (_path : String) : String := ""

/-- A write performed by `os.WriteFile(targetPath, fileData,
entry.Permissions)`. -/
structure WriteOp where
  path : String
  bytes : List Nat
  perms : Nat
deriving DecidableEq

/-- What one `restoreFile` call does: how many `DownloadFile` calls it
made, what it wrote, and how it moved the progress counters. -/
structure RestoreOutcome where
  downloads : Nat
  written : Option WriteOp
  restoredDelta : Nat
  failedDelta : Nat
  errors : List String
deriving DecidableEq

section Restore

-- The filesystem: content of the regular file at a path, if any.
variable (fsFiles : String → Option (List Nat))
-- `client.DownloadFile` + `io.ReadAll`: the downloaded bytes.
variable (download : String → Option (List Nat))

/-- `RestoreService.fileExists`: the target must exist, and the
(stubbed) checksum of the existing file must equal the manifest
checksum. -/
def fileExists (path checksum : String) : Bool :=
  match fsFiles path with
  | none => false
  | some _ => calculateFileChecksum path = checksum

/-- `RestoreService.restoreFile`: skip when `fileExists` accepts the
pre-existing target, else download `entry.FileID` and write the bytes
as received with the manifest permissions.  (Directory creation and
the file write are modelled as succeeding; the download is the
modelled failure source.) -/
def restoreFile (entry : FileManifestEntry) (targetDir : String) : RestoreOutcome :=
  if fileExists fsFiles (targetDir ++ "/" ++ baseName entry.filePath) entry.checksum then
    { downloads := 0, written := none, restoredDelta := 1, failedDelta := 0, errors := [] }
  else
    match download entry.fileID with
    | none =>
      { downloads := 1, written := none, restoredDelta := 0, failedDelta := 1,
        errors := [entry.filePath] }
    | some fileData =>
      { downloads := 1
        written := some { path := targetDir ++ "/" ++ baseName entry.filePath,
                          bytes := fileData, perms := entry.permissions }
        restoredDelta := 1, failedDelta := 0, errors := [] }

end Restore

end Koneksi.monitor

namespace Koneksi.api

/-!
## `internal/api/client.go`: retry policy

`doRequest` loops `for i := 0; i <= c.retryCount; i++`, sleeping
`i*i` seconds before retry `i`; connection errors and `5xx` responses
continue the loop, `4xx` responses are returned to the caller at once,
and anything else is returned as the response.  `UploadFile` does NOT
go through `doRequest`: it calls `c.HttpClient.Do(req)` exactly once.
The HTTP transport is an oracle giving the outcome of each attempt.
-/

/-- Outcome of one `HttpClient.Do` call. -/
inductive HttpOutcome
  | connFail
  | status (code : Nat)
deriving DecidableEq

/-- Trace of one `doRequest` call: the response handed back to the
caller (`none` = error after exhausting attempts), the number of
`HttpClient.Do` calls, and the sleeps performed, in seconds. -/
structure ReqTrace where
  response : Option Nat
  attempts : Nat
  sleeps : List Nat
deriving DecidableEq

/-- The `doRequest` loop from iteration `i`, with `fuel` iterations
left (`fuel = retryCount + 1 - i` at entry). -/
def doRequestLoop (oracle : Nat → HttpOutcome) : Nat → Nat → ReqTrace
  | 0, _ => { response := none, attempts := 0, sleeps := [] }
  | fuel + 1, i =>
    let sl : List Nat := if 0 < i then [i * i] else []
    match oracle i with
    | .connFail =>
      let t := doRequestLoop oracle fuel (i + 1)
      { response := t.response, attempts := t.attempts + 1, sleeps := sl ++ t.sleeps }
    | .status c =>
      if 400 ≤ c ∧ c < 500 then { response := some c, attempts := 1, sleeps := sl }
      else if 500 ≤ c then
        let t := doRequestLoop oracle fuel (i + 1)
        { response := t.response, attempts := t.attempts + 1, sleeps := sl ++ t.sleeps }
      else { response := some c, attempts := 1, sleeps := sl }

/-- `Client.doRequest` with the configured `retryCount`. -/
def doRequest (retryCount : Nat) (oracle : Nat → HttpOutcome) : ReqTrace :=
  doRequestLoop oracle (retryCount + 1) 0

/-- `Client.UploadFile`'s single `c.HttpClient.Do(req)` call: the
response status (or `none` on a connection error) and the number of
transport calls made — always exactly one, with no retry loop. -/
def UploadFile (oracle : Nat → HttpOutcome) : Option Nat × Nat :=
  match oracle 0 with
  | .connFail => (none, 1)
  | .status c => (some c, 1)

/-- An attempt outcome `doRequest` retries on: a connection failure or
a server-side (`5xx` and above) status. -/
def isTransient : HttpOutcome → Bool
  | .connFail => true
  | .status c => 500 ≤ c

end Koneksi.api

namespace Koneksi.encryption

section Truncation

variable (aeadSeal : List Nat → List Nat → List Nat → List Nat)
variable (aeadOpen : List Nat → List Nat → List Nat → Option (List Nat))
variable (kdf : String → List Nat → List Nat)

/-- `r` bytes into the framed chunk stream lies exactly on a frame
boundary: zero frames, or a full first frame (4-byte prefix plus its
whole ciphertext) followed by a boundary of the remaining frames. -/
def isBoundary (key : List Nat) : List Nat → Nat → List (List Nat) → Bool
  | _, r, [] => r == 0
  | nonce, r, c :: cs =>
    r == 0 ||
      (decide (4 + (aeadSeal key nonce c).length ≤ r) &&
        isBoundary key (incrementNonce nonce)
          (r - (4 + (aeadSeal key nonce c).length)) cs)

/-- Running the decrypt loop on a prefix of the framed chunk stream
succeeds exactly when the prefix ends on a frame boundary. -/
theorem decryptLoop_take_sealFrames (key : List Nat)
    (hOpen : ∀ n p, aeadOpen key n (aeadSeal key n p) = some p)
    (hLen : ∀ n p, (aeadSeal key n p).length = p.length + 16) :
    ∀ (cs : List (List Nat)) (nonce : List Nat) (r : Nat),
      (∀ c ∈ cs, c.length ≤ 4096) →
      r ≤ (sealFrames aeadSeal key nonce cs).length →
      (decryptLoop aeadOpen key nonce
          ((sealFrames aeadSeal key nonce cs).take r)).isSome =
        isBoundary aeadSeal key nonce r cs := by
  intro cs
  induction cs with
  | nil =>
    intro nonce r _ hr
    rw [sealFrames] at hr ⊢
    simp only [List.length_nil, Nat.le_zero] at hr
    subst hr
    rw [decryptLoop, isBoundary]
    simp
  | cons c cs ih =>
    intro nonce r hle hr
    have hcs : ∀ x ∈ cs, x.length ≤ 4096 := fun x hx => hle x (List.mem_cons_of_mem c hx)
    have heL : (aeadSeal key nonce c).length = c.length + 16 := hLen nonce c
    have heLt : (aeadSeal key nonce c).length < 2 ^ 32 := by
      have := hle c (List.mem_cons_self c cs)
      omega
    have hlen : (sealFrames aeadSeal key nonce (c :: cs)).length =
        4 + ((aeadSeal key nonce c).length +
          (sealFrames aeadSeal key (incrementNonce nonce) cs).length) := by
      rw [sealFrames]; simp [List.length_append]
    rcases Nat.eq_zero_or_pos r with h0 | hpos
    · subst h0
      rw [List.take_zero, decryptLoop, isBoundary]
      simp
    rcases Nat.lt_or_ge r 4 with h4 | h4
    · -- truncated inside the 4-byte length prefix
      have hlenTake : ((sealFrames aeadSeal key nonce (c :: cs)).take r).length = r := by
        rw [List.length_take]
        omega
      rw [decryptLoop, dif_neg (by rw [hlenTake]; omega),
        dif_pos (by rw [hlenTake]; omega), isBoundary]
      have h1 : (r == 0) = false := by simp; omega
      have h2 : decide (4 + (aeadSeal key nonce c).length ≤ r) = false := by
        simp; omega
      rw [h1, h2]
      simp
    rcases Nat.lt_or_ge r (4 + (aeadSeal key nonce c).length) with hF | hF
    · -- truncated inside the first ciphertext chunk
      have htake : (sealFrames aeadSeal key nonce (c :: cs)).take r =
          be32 (aeadSeal key nonce c).length ++
            ((aeadSeal key nonce c ++
              sealFrames aeadSeal key (incrementNonce nonce) cs).take (r - 4)) := by
        rw [sealFrames, List.take_append_eq_append_take, length_be32,
          List.take_of_length_le (by rw [length_be32]; omega)]
      have hlenTail : ((aeadSeal key nonce c ++
          sealFrames aeadSeal key (incrementNonce nonce) cs).take (r - 4)).length =
          r - 4 := by
        rw [List.length_take, List.length_append]
        rw [hlen] at hr
        omega
      rw [htake, decryptLoop,
        dif_neg (by simp only [List.length_append, length_be32, hlenTail]; omega),
        dif_neg (by simp only [List.length_append, length_be32, hlenTail]; omega),
        List.take_left' (length_be32 _), List.drop_left' (length_be32 _),
        toNat4L_be32 heLt,
        if_pos (by simp only [List.length_append, length_be32, hlenTail]; omega),
        isBoundary]
      have h1 : (r == 0) = false := by simp; omega
      have h2 : decide (4 + (aeadSeal key nonce c).length ≤ r) = false := by
        simp; omega
      rw [h1, h2]
      simp
    · -- the whole first frame is inside the prefix
      have hA : (be32 (aeadSeal key nonce c).length).length ≤ r := by
        rw [length_be32]; omega
      have hB : (aeadSeal key nonce c).length ≤ r - 4 := by omega
      have htake : (sealFrames aeadSeal key nonce (c :: cs)).take r =
          be32 (aeadSeal key nonce c).length ++
            (aeadSeal key nonce c ++
              ((sealFrames aeadSeal key (incrementNonce nonce) cs).take
                (r - (4 + (aeadSeal key nonce c).length)))) := by
        rw [sealFrames, List.take_append_eq_append_take, length_be32,
          List.take_of_length_le hA, List.take_append_eq_append_take,
          List.take_of_length_le hB,
          (by omega : r - 4 - (aeadSeal key nonce c).length =
            r - (4 + (aeadSeal key nonce c).length))]
      rw [htake, decryptLoop_frame aeadOpen key nonce _ _ heLt, hOpen nonce c,
        isBoundary]
      have h1 : (r == 0) = false := by simp; omega
      have h2 : decide (4 + (aeadSeal key nonce c).length ≤ r) = true := by
        simp; omega
      rw [h1, h2]
      simp only [Bool.false_or, Bool.true_and]
      rw [← ih (incrementNonce nonce) (r - (4 + (aeadSeal key nonce c).length)) hcs
        (by rw [hlen] at hr; omega)]
      simp [Option.isSome_map]

end Truncation

end Koneksi.encryption

namespace Koneksi.api

/-- From iteration `i ≥ 1` on, if every remaining attempt fails
transiently, the loop makes exactly `fuel` more attempts, sleeping
`j*j` seconds before attempt `j`, and ends with no response. -/
theorem doRequestLoop_transient (oracle : Nat → HttpOutcome) :
    ∀ (fuel i : Nat), 1 ≤ i →
      (∀ j, i ≤ j → j < i + fuel → isTransient (oracle j) = true) →
      doRequestLoop oracle fuel i =
        { response := none, attempts := fuel,
          sleeps := (List.range' i fuel).map (fun j => j * j) } := by
  intro fuel
  induction fuel with
  | zero => intro i _ _; rw [doRequestLoop]; simp
  | succ fuel ih =>
    intro i hi htr
    have hcur := htr i le_rfl (by omega)
    have hrec : doRequestLoop oracle fuel (i + 1) =
        { response := none, attempts := fuel,
          sleeps := (List.range' (i + 1) fuel).map (fun j => j * j) } :=
      ih (i + 1) (by omega) (fun j h1 h2 => htr j (by omega) (by omega))
    rw [doRequestLoop]
    cases hor : oracle i with
    | connFail =>
      simp only [hrec]
      rw [if_pos (show 0 < i by omega)]
      simp [List.range'_succ]
    | status c =>
      rw [hor] at hcur
      have hc : 500 ≤ c := by simpa [isTransient] using hcur
      simp only [hrec]
      rw [if_pos (show 0 < i by omega)]
      rw [if_neg (show ¬ (400 ≤ c ∧ c < 500) by omega), if_pos hc]
      simp [List.range'_succ]

/-- When every attempt up to `retryCount` fails transiently,
`doRequest` makes `retryCount + 1` attempts with quadratic backoff
sleeps `1, 4, 9, …` and returns no response. -/
theorem doRequest_transient (rc : Nat) (oracle : Nat → HttpOutcome)
    (h : ∀ j, j ≤ rc → isTransient (oracle j) = true) :
    doRequest rc oracle =
      { response := none, attempts := rc + 1,
        sleeps := (List.range' 1 rc).map (fun j => j * j) } := by
  have hrec : doRequestLoop oracle rc 1 =
      { response := none, attempts := rc,
        sleeps := (List.range' 1 rc).map (fun j => j * j) } :=
    doRequestLoop_transient oracle rc 1 le_rfl (fun j h1 h2 => h j (by omega))
  have h0 := h 0 (by omega)
  rw [doRequest, doRequestLoop]
  cases hor : oracle 0 with
  | connFail => simp [hrec]
  | status c =>
    rw [hor] at h0
    have hc : 500 ≤ c := by simpa [isTransient] using h0
    simp only [if_neg (by omega : ¬ (0:Nat) < 0)]
    rw [if_neg (by omega : ¬ (400 ≤ c ∧ c < 500)), if_pos hc]
    simp [hrec]

/-- A `4xx` response on the first attempt is returned immediately:
one transport call, no sleeps, no retry. -/
theorem doRequest_clientError (rc : Nat) (oracle : Nat → HttpOutcome) (c : Nat)
    (h : oracle 0 = .status c) (h4 : 400 ≤ c) (h5 : c < 500) :
    doRequest rc oracle = { response := some c, attempts := 1, sleeps := [] } := by
  rw [doRequest, doRequestLoop, h]
  simp only [if_neg (by omega : ¬ (0:Nat) < 0)]
  rw [if_pos ⟨h4, h5⟩]

end Koneksi.api

namespace Koneksi.toy

/-!
Concrete instantiations of the external primitives, used to witness
the theorems' hypotheses at concrete inputs.  They satisfy exactly the
contracts the theorems assume (inversion, ciphertext length +16,
cross-key authentication failure, codec round-trip); they are stand-ins
for the real library primitives, not models of them.
-/

open Koneksi.encryption

/-- Toy key derivation: one byte depending on the password length. -/
def toyKdf (password : String) (_salt : List Nat) : List Nat :=
  [password.length % 256]

/-- Toy 16-byte authentication tag, derived from key and nonce. -/
def toyTag (key nonce : List Nat) : List Nat :=
  List.replicate 16 ((key.sum + nonce.sum) % 256)

/-- Toy AEAD seal: plaintext followed by the 16-byte tag. -/
def toySeal (key nonce p : List Nat) : List Nat := p ++ toyTag key nonce

/-- Toy AEAD open: check the trailing 16-byte tag. -/
def toyOpen (key nonce c : List Nat) : Option (List Nat) :=
  if 16 ≤ c.length ∧ c.drop (c.length - 16) = toyTag key nonce then
    some (c.take (c.length - 16))
  else none

theorem toySeal_length (key nonce p : List Nat) :
    (toySeal key nonce p).length = p.length + 16 := by
  simp [toySeal, toyTag]

theorem toyOpen_toySeal (key nonce p : List Nat) :
    toyOpen key nonce (toySeal key nonce p) = some p := by
  have h1 : (p ++ toyTag key nonce).length = p.length + 16 := by simp [toyTag]
  show toyOpen key nonce (p ++ toyTag key nonce) = some p
  rw [toyOpen, h1, Nat.add_sub_cancel,
    if_pos ⟨by omega, List.drop_left' rfl⟩, List.take_left' rfl]

theorem toyTag_sum_ne (n : List Nat) (s t : Nat) (h : s % 256 ≠ t % 256) :
    toyTag [s] n ≠ toyTag [t] n := by
  intro hEq
  have h2 : (s + List.sum n) % 256 = (t + List.sum n) % 256 := by
    simpa [toyTag] using hEq
  omega

theorem toyOpen_wrong_key (n c : List Nat) :
    toyOpen [1] n (toySeal [0] n c) = none := by
  have hlen : (toySeal [0] n c).length = c.length + 16 := toySeal_length [0] n c
  have hdrop : (toySeal [0] n c).drop ((toySeal [0] n c).length - 16) = toyTag [0] n := by
    rw [hlen, Nat.add_sub_cancel]
    show (c ++ toyTag [0] n).drop c.length = toyTag [0] n
    exact List.drop_left' rfl
  rw [toyOpen,
    if_neg (fun hcond =>
      toyTag_sum_ne n 0 1 (by omega) (hdrop.symm.trans hcond.2))]

/-- Toy gzip: a two-byte header then the raw data. -/
def toyGzipWrite (_level : Int) (d : List Nat) : List Nat := 31 :: (139 :: d)

/-- Toy gzip reader: strip and check the header. -/
def toyGzipRead : List Nat → Option (List Nat)
  | 31 :: (139 :: rest) => some rest
  | _ => none

/-- Toy zlib: a one-byte header then the raw data. -/
def toyZlibWrite (_level : Int) (d : List Nat) : List Nat := 120 :: d

/-- Toy zlib reader. -/
def toyZlibRead : List Nat → Option (List Nat)
  | 120 :: rest => some rest
  | _ => none

theorem toyGzip_roundtrip (lv : Int) (d : List Nat) :
    toyGzipRead (toyGzipWrite lv d) = some d := rfl

theorem toyZlib_roundtrip (lv : Int) (d : List Nat) :
    toyZlibRead (toyZlibWrite lv d) = some d := rfl

end Koneksi.toy

namespace Koneksi.claims

open Koneksi.encryption Koneksi.compression Koneksi.toy

/-- C1: decoding the output of the content-transform encode under the
same configuration and password returns the input byte string exactly,
for every input (empty included): for the compression stage, for the
chunked AEAD encryption stage, and for their composition
(compress-then-encrypt, decrypt-then-decompress), given the Go library
contracts for the codecs and for AES-GCM under the derived key. -/
theorem C1_transform_roundtrip
    (aeadSeal : List Nat → List Nat → List Nat → List Nat)
    (aeadOpen : List Nat → List Nat → List Nat → Option (List Nat))
    (kdf : String → List Nat → List Nat)
    (gzipWrite : Int → List Nat → List Nat) (gzipRead : List Nat → Option (List Nat))
    (zlibWrite : Int → List Nat → List Nat) (zlibRead : List Nat → Option (List Nat))
    (c : Compressor) (password : String) (salt nonce : List Nat)
    (hsalt : salt.length = 32) (hnonce : nonce.length = 12)
    (hGz : ∀ lv d, gzipRead (gzipWrite lv d) = some d)
    (hZl : ∀ lv d, zlibRead (zlibWrite lv d) = some d)
    (hOpen : ∀ n p,
      aeadOpen (kdf password salt) n (aeadSeal (kdf password salt) n p) = some p)
    (hLen : ∀ n p, (aeadSeal (kdf password salt) n p).length = p.length + 16) :
    (∀ x, Decompress gzipRead zlibRead c (Compress gzipWrite zlibWrite c x) = some x)
    ∧ (∀ x, decryptFile aeadOpen kdf password
        (encryptFile aeadSeal kdf password salt nonce x) = some x)
    ∧ (∀ x, (decryptFile aeadOpen kdf password
          (encryptFile aeadSeal kdf password salt nonce
            (Compress gzipWrite zlibWrite c x))).bind
          (Decompress gzipRead zlibRead c) = some x) := by
  refine ⟨fun x => Decompress_Compress gzipWrite gzipRead zlibWrite zlibRead hGz hZl c x,
    fun x => decryptFile_encryptFile aeadSeal aeadOpen kdf password salt nonce x
      hsalt hnonce hOpen hLen,
    fun x => ?_⟩
  rw [decryptFile_encryptFile aeadSeal aeadOpen kdf password salt nonce
    (Compress gzipWrite zlibWrite c x) hsalt hnonce hOpen hLen,
    Option.some_bind]
  exact Decompress_Compress gzipWrite gzipRead zlibWrite zlibRead hGz hZl c x

/-- Witness for C1 on the toy primitives: gzip configuration, password
"p1", concrete salt and nonce, input `[10, 20, 30]`. -/
theorem C1_transform_roundtrip_witness :
    Decompress toyGzipRead toyZlibRead (Compressor.gzip 5)
        (Compress toyGzipWrite toyZlibWrite (Compressor.gzip 5) [10, 20, 30]) =
      some [10, 20, 30]
    ∧ decryptFile toyOpen toyKdf "p1"
        (encryptFile toySeal toyKdf "p1" (List.replicate 32 3) (List.replicate 12 4)
          [10, 20, 30]) = some [10, 20, 30]
    ∧ (decryptFile toyOpen toyKdf "p1"
        (encryptFile toySeal toyKdf "p1" (List.replicate 32 3) (List.replicate 12 4)
          (Compress toyGzipWrite toyZlibWrite (Compressor.gzip 5) [10, 20, 30]))).bind
        (Decompress toyGzipRead toyZlibRead (Compressor.gzip 5)) = some [10, 20, 30] :=
  ⟨(C1_transform_roundtrip toySeal toyOpen toyKdf toyGzipWrite toyGzipRead toyZlibWrite
      toyZlibRead (Compressor.gzip 5) "p1" (List.replicate 32 3) (List.replicate 12 4)
      (by simp) (by simp) toyGzip_roundtrip toyZlib_roundtrip
      (fun n p => toyOpen_toySeal _ n p) (fun n p => toySeal_length _ n p)).1 [10, 20, 30],
   (C1_transform_roundtrip toySeal toyOpen toyKdf toyGzipWrite toyGzipRead toyZlibWrite
      toyZlibRead (Compressor.gzip 5) "p1" (List.replicate 32 3) (List.replicate 12 4)
      (by simp) (by simp) toyGzip_roundtrip toyZlib_roundtrip
      (fun n p => toyOpen_toySeal _ n p) (fun n p => toySeal_length _ n p)).2.1 [10, 20, 30],
   (C1_transform_roundtrip toySeal toyOpen toyKdf toyGzipWrite toyGzipRead toyZlibWrite
      toyZlibRead (Compressor.gzip 5) "p1" (List.replicate 32 3) (List.replicate 12 4)
      (by simp) (by simp) toyGzip_roundtrip toyZlib_roundtrip
      (fun n p => toyOpen_toySeal _ n p) (fun n p => toySeal_length _ n p)).2.2 [10, 20, 30]⟩

/-- C8: the `i`-th chunk of a container is sealed with the nonce base
incremented `i` times; read big-endian, that nonce equals
`(base + i) mod 2^96` with carries across all twelve bytes, each
chunk's nonce is the mod-`2^96` successor of the previous one, and
nonces never repeat among chunk indices below `2^96`. -/
theorem C8_nonce_bigendian_increment
    (aeadSeal : List Nat → List Nat → List Nat → List Nat)
    (kdf : String → List Nat → List Nat)
    (base : List Nat) (hlen : base.length = 12) (hwf : BytesWF base) :
    (∀ (password : String) (salt data : List Nat),
        encryptFile aeadSeal kdf password salt base data =
          salt ++ (base ++
            ((chunkList data).mapIdx (fun i c =>
              be32 (aeadSeal (kdf password salt) (nonceAt base i) c).length ++
                aeadSeal (kdf password salt) (nonceAt base i) c)).flatten))
    ∧ (∀ i, toNatBE (nonceAt base i) = (toNatBE base + i) % 2 ^ 96)
    ∧ (∀ i, toNatBE (nonceAt base (i + 1)) = (toNatBE (nonceAt base i) + 1) % 2 ^ 96)
    ∧ (∀ i j, i < j → j < 2 ^ 96 → nonceAt base i ≠ nonceAt base j) := by
  have hM : (256:Nat) ^ base.length = 2 ^ 96 := by rw [hlen]; norm_num
  refine ⟨?_, ?_, ?_, ?_⟩
  · intro password salt data
    rw [encryptFile, sealFrames_eq_mapIdx]
  · intro i
    rw [toNatBE_nonceAt hwf i, hM]
  · intro i
    rw [nonceAt_succ, toNatBE_incrementNonce (bytesWF_nonceAt hwf i),
      length_nonceAt, hM]
  · intro i j hij hjlt hEq
    have h2 : toNatBE (nonceAt base i) = toNatBE (nonceAt base j) := congrArg _ hEq
    rw [toNatBE_nonceAt hwf i, toNatBE_nonceAt hwf j, hM] at h2
    have hmodeq : Nat.ModEq (2 ^ 96) (toNatBE base + i) (toNatBE base + j) := h2
    have hij2 : Nat.ModEq (2 ^ 96) i j :=
      Nat.ModEq.add_left_cancel' (toNatBE base) hmodeq
    have hdvd : (2 ^ 96) ∣ j - i := (Nat.modEq_iff_dvd' (Nat.le_of_lt hij)).mp hij2
    have := Nat.le_of_dvd (by omega) hdvd
    omega

/-- Witness for C8 at the carrying nonce base `00…00 ff`: the value
equation at chunk 2, and distinctness of the nonces of chunks 1 and 5. -/
theorem C8_nonce_bigendian_increment_witness :
    toNatBE (nonceAt [0, 0, 0, 0, 0, 0, 0, 0, 0, 0, 0, 255] 2) =
        (toNatBE [0, 0, 0, 0, 0, 0, 0, 0, 0, 0, 0, 255] + 2) % 2 ^ 96
    ∧ nonceAt [0, 0, 0, 0, 0, 0, 0, 0, 0, 0, 0, 255] 1 ≠
        nonceAt [0, 0, 0, 0, 0, 0, 0, 0, 0, 0, 0, 255] 5 :=
  ⟨(C8_nonce_bigendian_increment toySeal toyKdf _ (by decide) (by decide)).2.1 2,
   (C8_nonce_bigendian_increment toySeal toyKdf _ (by decide) (by decide)).2.2.2 1 5
     (by omega) (by norm_num)⟩

/-- C6: decrypting a truncation of an encrypted container (cut at or
after the 44-byte salt-and-nonce header) succeeds exactly when the cut
falls on a frame boundary of the chunk stream; a cut inside a 4-byte
length prefix or inside a ciphertext chunk is an error. -/
theorem C6_truncation_frame_boundary
    (aeadSeal : List Nat → List Nat → List Nat → List Nat)
    (aeadOpen : List Nat → List Nat → List Nat → Option (List Nat))
    (kdf : String → List Nat → List Nat)
    (password : String) (salt nonce data : List Nat) (m : Nat)
    (hsalt : salt.length = 32) (hnonce : nonce.length = 12)
    (hOpen : ∀ n p,
      aeadOpen (kdf password salt) n (aeadSeal (kdf password salt) n p) = some p)
    (hLen : ∀ n p, (aeadSeal (kdf password salt) n p).length = p.length + 16)
    (h44 : 44 ≤ m)
    (hm : m ≤ (encryptFile aeadSeal kdf password salt nonce data).length) :
    (decryptFile aeadOpen kdf password
        ((encryptFile aeadSeal kdf password salt nonce data).take m)).isSome =
      isBoundary aeadSeal (kdf password salt) nonce (m - 44)
        (chunkList data) := by
  have hflen : (encryptFile aeadSeal kdf password salt nonce data).length =
      44 + (sealFrames aeadSeal (kdf password salt) nonce (chunkList data)).length := by
    rw [encryptFile]
    simp [List.length_append, hsalt, hnonce]
    omega
  have hr : m - 44 ≤ (sealFrames aeadSeal (kdf password salt) nonce (chunkList data)).length := by
    omega
  have htakeSalt : salt.take m = salt := List.take_of_length_le (by omega)
  have htakeNonce : nonce.take (m - 32) = nonce := List.take_of_length_le (by omega)
  have htake : (encryptFile aeadSeal kdf password salt nonce data).take m =
      salt ++ (nonce ++
        ((sealFrames aeadSeal (kdf password salt) nonce (chunkList data)).take (m - 44))) := by
    rw [encryptFile, List.take_append_eq_append_take, hsalt, htakeSalt,
      List.take_append_eq_append_take, hnonce, htakeNonce,
      (by omega : m - 32 - 12 = m - 44)]
  have hlenTrunc :
      ((sealFrames aeadSeal (kdf password salt) nonce (chunkList data)).take (m - 44)).length =
      m - 44 := by
    rw [List.length_take]
    omega
  rw [htake, decryptFile,
    if_neg (by simp only [List.length_append, hsalt, hnonce, hlenTrunc]; omega),
    List.take_left' hsalt, List.drop_left' hsalt,
    List.take_left' hnonce, List.drop_left' hnonce,
    decryptLoop_take_sealFrames aeadSeal aeadOpen (kdf password salt) hOpen hLen
      (chunkList data) nonce (m - 44) chunkList_chunk_le hr]

/-- Witness for C6 on the toy primitives: a 5-byte plaintext gives one
frame of 25 bytes; the full container (cut at 69, a frame boundary)
decrypts, and the theorem also applies at cut 50 (inside the
ciphertext), where both sides evaluate to failure. -/
theorem C6_truncation_frame_boundary_witness :
    ((decryptFile toyOpen toyKdf "pw"
        ((encryptFile toySeal toyKdf "pw" (List.replicate 32 1) (List.replicate 12 2)
          [9, 8, 7, 6, 5]).take 69)).isSome =
      isBoundary toySeal (toyKdf "pw" (List.replicate 32 1)) (List.replicate 12 2)
        (69 - 44) (chunkList [9, 8, 7, 6, 5]))
    ∧ ((decryptFile toyOpen toyKdf "pw"
        ((encryptFile toySeal toyKdf "pw" (List.replicate 32 1) (List.replicate 12 2)
          [9, 8, 7, 6, 5]).take 50)).isSome =
      isBoundary toySeal (toyKdf "pw" (List.replicate 32 1)) (List.replicate 12 2)
        (50 - 44) (chunkList [9, 8, 7, 6, 5]))
    ∧ isBoundary toySeal (toyKdf "pw" (List.replicate 32 1)) (List.replicate 12 2)
        (69 - 44) (chunkList [9, 8, 7, 6, 5]) = true
    ∧ isBoundary toySeal (toyKdf "pw" (List.replicate 32 1)) (List.replicate 12 2)
        (50 - 44) (chunkList [9, 8, 7, 6, 5]) = false := by
  have hchunk : chunkList [9, 8, 7, 6, 5] = [[9, 8, 7, 6, 5]] := by
    rw [chunkList_cons (by decide), List.take_of_length_le (by norm_num),
      List.drop_of_length_le (by norm_num), chunkList]
    rfl
  have hlen69 : (encryptFile toySeal toyKdf "pw" (List.replicate 32 1)
      (List.replicate 12 2) [9, 8, 7, 6, 5]).length = 69 := by
    rw [encryptFile, hchunk]
    decide
  refine ⟨C6_truncation_frame_boundary toySeal toyOpen toyKdf "pw" (List.replicate 32 1)
      (List.replicate 12 2) [9, 8, 7, 6, 5] 69 (by simp) (by simp)
      (fun n p => toyOpen_toySeal _ n p) (fun n p => toySeal_length _ n p)
      (by omega) (by rw [hlen69]),
    C6_truncation_frame_boundary toySeal toyOpen toyKdf "pw" (List.replicate 32 1)
      (List.replicate 12 2) [9, 8, 7, 6, 5] 50 (by simp) (by simp)
      (fun n p => toyOpen_toySeal _ n p) (fun n p => toySeal_length _ n p)
      (by omega) (by rw [hlen69]; omega),
    by rw [hchunk]; decide,
    by rw [hchunk]; decide⟩

/-- C7: a non-empty container encrypted under one password fails to
decrypt under a password whose derived key fails AEAD authentication
on the sealed chunks: the decryptor returns an error already on the
first chunk and hands back no plaintext at all. -/
theorem C7_wrong_password_fails
    (aeadSeal : List Nat → List Nat → List Nat → List Nat)
    (aeadOpen : List Nat → List Nat → List Nat → Option (List Nat))
    (kdf : String → List Nat → List Nat)
    (pw1 pw2 : String) (salt nonce data : List Nat)
    (hsalt : salt.length = 32) (hnonce : nonce.length = 12)
    (hdata : data ≠ [])
    (hLen : ∀ n p, (aeadSeal (kdf pw1 salt) n p).length = p.length + 16)
    (hAuth : ∀ n c, aeadOpen (kdf pw2 salt) n (aeadSeal (kdf pw1 salt) n c) = none) :
    decryptFile aeadOpen kdf pw2 (encryptFile aeadSeal kdf pw1 salt nonce data) =
      none := by
  have htake32 : ((salt ++ (nonce ++
      sealFrames aeadSeal (kdf pw1 salt) nonce (chunkList data))).take 32) = salt :=
    List.take_left' hsalt
  have hdrop32 : ((salt ++ (nonce ++
      sealFrames aeadSeal (kdf pw1 salt) nonce (chunkList data))).drop 32) =
      nonce ++ sealFrames aeadSeal (kdf pw1 salt) nonce (chunkList data) :=
    List.drop_left' hsalt
  have heLt : (aeadSeal (kdf pw1 salt) nonce (data.take 4096)).length < 2 ^ 32 := by
    have h1 := hLen nonce (data.take 4096)
    have h2 : (data.take 4096).length ≤ 4096 := by
      rw [List.length_take]; omega
    omega
  rw [encryptFile, decryptFile,
    if_neg (by simp [List.length_append, hsalt, hnonce]; omega),
    htake32, hdrop32, List.take_left' hnonce, List.drop_left' hnonce,
    chunkList_cons hdata, sealFrames,
    decryptLoop_frame aeadOpen (kdf pw2 salt) nonce _ _ heLt,
    hAuth nonce (data.take 4096)]

/-- Witness for C7 on the toy primitives: passwords "" and "x" derive
the distinct toy keys `[0]` and `[1]`, and the toy AEAD rejects every
chunk sealed under the other key. -/
theorem C7_wrong_password_fails_witness :
    decryptFile toyOpen toyKdf "x"
      (encryptFile toySeal toyKdf "" (List.replicate 32 7) (List.replicate 12 9)
        [1, 2, 3]) = none :=
  C7_wrong_password_fails toySeal toyOpen toyKdf "" "x" (List.replicate 32 7)
    (List.replicate 12 9) [1, 2, 3] (by simp) (by simp) (by decide)
    (fun n p => toySeal_length _ n p) (fun n c => toyOpen_wrong_key n c)

/-- C3: contrary to the claim, a change event with operation "delete"
on a non-directory path within the size limit is NOT generally turned
into the "deleted" state transition: `needsBackup` runs first and its
`os.Stat` existence check rejects the event whenever the path no
longer exists on disk (the normal situation for a deletion), so the
event is dropped with the state untouched, no result recorded and
nothing uploaded.  Concrete run: path "f.txt" already deleted from
disk, recorded status "success", size 1 under the limit 100. -/
theorem C3_delete_event_dropped :
    (Koneksi.backup.ProcessChange (fun _ => false) (fun _ => none) (fun _ => none)
        (fun _ => none) (fun _ _ => none) 7 false 100
        (fun _ => some { lastBackup := 5, lastChecksum := "abc", backupCount := 2,
                         status := "success" })
        { path := "f.txt", operation := "delete", timestamp := 3, size := 1,
          isDir := false }).state "f.txt" =
      some { lastBackup := 5, lastChecksum := "abc", backupCount := 2,
             status := "success" }
    ∧ (Koneksi.backup.ProcessChange (fun _ => false) (fun _ => none) (fun _ => none)
        (fun _ => none) (fun _ _ => none) 7 false 100
        (fun _ => some { lastBackup := 5, lastChecksum := "abc", backupCount := 2,
                         status := "success" })
        { path := "f.txt", operation := "delete", timestamp := 3, size := 1,
          isDir := false }).results = []
    ∧ (Koneksi.backup.ProcessChange (fun _ => false) (fun _ => none) (fun _ => none)
        (fun _ => none) (fun _ _ => none) 7 false 100
        (fun _ => some { lastBackup := 5, lastChecksum := "abc", backupCount := 2,
                         status := "success" })
        { path := "f.txt", operation := "delete", timestamp := 3, size := 1,
          isDir := false }).uploads = 0 := by
  refine ⟨?_, ?_, ?_⟩ <;> decide

/-- C4 counterexample: a "manual" event is not accepted
unconditionally — with the file present on disk but a recorded status
of "success", `needsBackup` rejects it, where the claim requires
acceptance. -/
theorem C4_manual_not_unconditional_counterexample :
    Koneksi.backup.needsBackup (fun _ => true)
      (fun p => if p = "m.txt" then
          some { lastBackup := 5, lastChecksum := "c", backupCount := 1,
                 status := "success" }
        else none)
      "m.txt" "manual" = false := by
  decide

/-- C4 (amended): only "create" and "modify" are accepted
unconditionally; every other operation — "manual" included — is
accepted iff the file still exists on disk and either no state is
recorded for the path or the recorded status is "failed" (so a
recorded "success" or "deleted" status rejects it). -/
theorem C4_needsBackup_characterization
    (statExists : String → Bool) (st : Koneksi.backup.StateMap)
    (filePath operation : String) :
    Koneksi.backup.needsBackup statExists st filePath operation =
      (operation == "create" || operation == "modify" ||
        (statExists filePath &&
          (st filePath).all (fun s => s.status == "failed"))) := by
  rw [Koneksi.backup.needsBackup]
  by_cases h1 : operation = "create"
  · simp [h1]
  by_cases h2 : operation = "modify"
  · simp [h1, h2]
  rw [if_neg (by tauto)]
  have e1 : (operation == "create") = false := by simp [h1]
  have e2 : (operation == "modify") = false := by simp [h2]
  by_cases h3 : statExists filePath
  · rw [if_neg (by simp [h3])]
    cases hst : st filePath with
    | none => simp [e1, e2, h3, Option.all]
    | some s =>
      by_cases hs : s.status = "failed" <;>
        simp [e1, e2, h3, hs, Option.all]
  · have h3f : statExists filePath = false := by
      revert h3; cases statExists filePath <;> simp
    rw [if_pos (by simp [h3f])]
    simp [e1, e2, h3f]

/-- C5 counterexample: after a failed upload the state's checksum is
NOT kept — it is overwritten with the newly computed checksum.  Prior
state has checksum "a"; the new content hashes to "b"; the upload
fails; the stored state ends with `lastChecksum = "b"`, not "a". -/
theorem C5_failed_upload_overwrites_checksum_counterexample :
    (Koneksi.backup.processBackup (fun _ => some "b") (fun _ => some [1])
        (fun d => some d) (fun _ _ => none) 9 false
        (fun p => if p = "a.txt" then
            some { lastBackup := 1, lastChecksum := "a", backupCount := 3,
                   status := "success" }
          else none)
        { filePath := "a.txt", operation := "modify", timestamp := 0, size := 1,
          isDir := false }).state "a.txt" =
      some { lastBackup := 9, lastChecksum := "b", backupCount := 3,
             status := "failed" }
    ∧ "b" ≠ "a" := by
  refine ⟨?_, by decide⟩
  decide

/-- C5 (amended): after the worker reaches the upload for a task (the
non-delete path, with a fresh checksum and a readable file), under
either compression setting — the uploaded payload being the compressed
bytes when compression is on and the raw content when it is off: on
upload success the state gets status "success", the newly computed
checksum, and a backup count incremented by exactly one, and a success
result and a database record are persisted; on upload failure the
state gets status "failed" and — unlike the claim's "checksum kept" —
also the newly computed checksum, a failure result is persisted, and
in both branches the worker returns a recorded outcome (exactly one
upload call, no uncaught failure). -/
theorem C5_processBackup_upload_outcomes
    (checksumOf : String → Option String)
    (openRead : String → Option (List Nat))
    (compressFile : List Nat → Option (List Nat))
    (upload : String → List Nat → Option String)
    (now : Nat) (compressionOn : Bool)
    (st : Koneksi.backup.StateMap) (task : Koneksi.backup.BackupTask)
    (ck : String) (content data : List Nat)
    (hop : task.operation ≠ "delete")
    (hck : checksumOf task.filePath = some ck)
    (hckne : ck ≠ "")
    (hchanged : (st task.filePath).any (fun s => s.lastChecksum = ck) = false)
    (hopen : openRead task.filePath = some content)
    (hprep : (if compressionOn then compressFile content else some content) =
      some data) :
    (upload task.filePath data = none →
      (Koneksi.backup.processBackup checksumOf openRead compressFile upload now
          compressionOn st task).state task.filePath =
        some { lastBackup := now, lastChecksum := ck,
               backupCount := ((st task.filePath).getD
                 { lastBackup := 0, lastChecksum := "", backupCount := 0,
                   status := "" }).backupCount,
               status := "failed" }
      ∧ (Koneksi.backup.processBackup checksumOf openRead compressFile upload now
          compressionOn st task).results =
        [{ filePath := task.filePath, fileID := "", operation := task.operation,
           success := false, error := some "failed to upload file", size := task.size,
           compressedSize := if compressionOn then Int.ofNat data.length else 0,
           checksum := ck, compressed := compressionOn }]
      ∧ (Koneksi.backup.processBackup checksumOf openRead compressFile upload now
          compressionOn st task).uploads = 1)
    ∧ (∀ fid, upload task.filePath data = some fid →
      (Koneksi.backup.processBackup checksumOf openRead compressFile upload now
          compressionOn st task).state task.filePath =
        some { lastBackup := now, lastChecksum := ck,
               backupCount := ((st task.filePath).getD
                 { lastBackup := 0, lastChecksum := "", backupCount := 0,
                   status := "" }).backupCount + 1,
               status := "success" }
      ∧ (Koneksi.backup.processBackup checksumOf openRead compressFile upload now
          compressionOn st task).results =
        [{ filePath := task.filePath, fileID := fid, operation := task.operation,
           success := true, error := none, size := task.size,
           compressedSize := if compressionOn then Int.ofNat data.length else 0,
           checksum := ck, compressed := compressionOn }]
      ∧ (Koneksi.backup.processBackup checksumOf openRead compressFile upload now
          compressionOn st task).uploads = 1
      ∧ (Koneksi.backup.processBackup checksumOf openRead compressFile upload now
          compressionOn st task).dbRecords =
        [{ filePath := task.filePath, fileID := fid, checksum := ck,
           originalSize := task.size,
           compressedSize := if compressionOn then Int.ofNat data.length else task.size,
           isCompressed := compressionOn, status := "success",
           operation := task.operation }]) := by
  have hbody : Koneksi.backup.processBackup checksumOf openRead compressFile upload
      now compressionOn st task =
      Koneksi.backup.uploadStage upload now compressionOn st task ck data
        (if compressionOn then Int.ofNat data.length else task.size)
        (if compressionOn then Int.ofNat data.length else 0) := by
    cases compressionOn with
    | false =>
      have hcd : content = data := by simpa using hprep
      subst hcd
      rw [Koneksi.backup.processBackup, if_neg hop, hck]
      simp only [hchanged, hopen]
      rfl
    | true =>
      have hcd : compressFile content = some data := by simpa using hprep
      rw [Koneksi.backup.processBackup, if_neg hop, hck]
      simp only [hchanged, hopen, hcd]
      rfl
  constructor
  · intro hup
    rw [hbody, Koneksi.backup.uploadStage, hup]
    refine ⟨?_, rfl, rfl⟩
    simp [Koneksi.backup.updateBackupState, hckne]
  · intro fid hup
    rw [hbody, Koneksi.backup.uploadStage, hup]
    refine ⟨?_, rfl, rfl, rfl⟩
    simp [Koneksi.backup.updateBackupState, hckne]

/-- Witness for C5: a concrete failing upload for path "a.txt" with
fresh checksum "b" over a prior "success" state with checksum "a",
with compression enabled (the toy compressor prepends a zero byte, so
the uploaded payload is `[0, 1]`), plus the upload count of the same
task with compression disabled. -/
theorem C5_processBackup_upload_outcomes_witness :
    (Koneksi.backup.processBackup (fun _ => some "b") (fun _ => some [1])
        (fun d => some (0 :: d)) (fun _ _ => none) 9 true
        (fun p => if p = "a.txt" then
            some { lastBackup := 1, lastChecksum := "a", backupCount := 3,
                   status := "success" }
          else none)
        { filePath := "a.txt", operation := "modify", timestamp := 0, size := 1,
          isDir := false }).state "a.txt" =
      some { lastBackup := 9, lastChecksum := "b",
             backupCount := (((fun p => if p = "a.txt" then
                 some { lastBackup := 1, lastChecksum := "a", backupCount := 3,
                        status := "success" }
               else none : Koneksi.backup.StateMap) "a.txt").getD
               { lastBackup := 0, lastChecksum := "", backupCount := 0,
                 status := "" }).backupCount,
             status := "failed" }
    ∧ (Koneksi.backup.processBackup (fun _ => some "b") (fun _ => some [1])
        (fun d => some (0 :: d)) (fun _ _ => none) 9 true
        (fun p => if p = "a.txt" then
            some { lastBackup := 1, lastChecksum := "a", backupCount := 3,
                   status := "success" }
          else none)
        { filePath := "a.txt", operation := "modify", timestamp := 0, size := 1,
          isDir := false }).results =
      [{ filePath := "a.txt", fileID := "", operation := "modify",
         success := false, error := some "failed to upload file", size := 1,
         compressedSize := 2, checksum := "b", compressed := true }]
    ∧ (Koneksi.backup.processBackup (fun _ => some "b") (fun _ => some [1])
        (fun d => some (0 :: d)) (fun _ _ => none) 9 false
        (fun p => if p = "a.txt" then
            some { lastBackup := 1, lastChecksum := "a", backupCount := 3,
                   status := "success" }
          else none)
        { filePath := "a.txt", operation := "modify", timestamp := 0, size := 1,
          isDir := false }).uploads = 1 :=
  ⟨((C5_processBackup_upload_outcomes (fun _ => some "b") (fun _ => some [1])
      (fun d => some (0 :: d)) (fun _ _ => none) 9 true
      (fun p => if p = "a.txt" then
          some { lastBackup := 1, lastChecksum := "a", backupCount := 3,
                 status := "success" }
        else none)
      { filePath := "a.txt", operation := "modify", timestamp := 0, size := 1,
        isDir := false } "b" [1] [0, 1] (by decide) rfl (by decide) (by decide)
      rfl rfl).1 rfl).1,
   ((C5_processBackup_upload_outcomes (fun _ => some "b") (fun _ => some [1])
      (fun d => some (0 :: d)) (fun _ _ => none) 9 true
      (fun p => if p = "a.txt" then
          some { lastBackup := 1, lastChecksum := "a", backupCount := 3,
                 status := "success" }
        else none)
      { filePath := "a.txt", operation := "modify", timestamp := 0, size := 1,
        isDir := false } "b" [1] [0, 1] (by decide) rfl (by decide) (by decide)
      rfl rfl).1 rfl).2.1,
   ((C5_processBackup_upload_outcomes (fun _ => some "b") (fun _ => some [1])
      (fun d => some (0 :: d)) (fun _ _ => none) 9 false
      (fun p => if p = "a.txt" then
          some { lastBackup := 1, lastChecksum := "a", backupCount := 3,
                 status := "success" }
        else none)
      { filePath := "a.txt", operation := "modify", timestamp := 0, size := 1,
        isDir := false } "b" [1] [1] (by decide) rfl (by decide) (by decide)
      rfl rfl).1 rfl).2.2⟩

/-- C2: contrary to the claim, a pre-existing target file whose true
SHA-256 checksum equals the manifest entry's checksum does NOT skip
the download: `calculateFileChecksum` is a stub returning the empty
string, so `fileExists` compares `""` against the (non-empty) manifest
checksum, the skip never fires, and `restoreFile` performs one
download call for the entry. -/
theorem C2_checksum_stub_forces_download
    (sha256 : List Nat → String)
    (fsFiles download : String → Option (List Nat))
    (entry : Koneksi.monitor.FileManifestEntry) (targetDir : String)
    (content : List Nat)
    (hfs : fsFiles (targetDir ++ "/" ++ Koneksi.monitor.baseName entry.filePath) =
      some content)
    (hsha : sha256 content = entry.checksum)
    (hck : entry.checksum ≠ "") :
    (Koneksi.monitor.restoreFile fsFiles download entry targetDir).downloads = 1 := by
  have hfe : Koneksi.monitor.fileExists fsFiles
      (targetDir ++ "/" ++ Koneksi.monitor.baseName entry.filePath) entry.checksum =
      false := by
    rw [Koneksi.monitor.fileExists, hfs]
    simp [Koneksi.monitor.calculateFileChecksum]
    exact fun h => hck h.symm
  rw [Koneksi.monitor.restoreFile, if_neg (by simp [hfe])]
  cases hdl : download entry.fileID <;> simp [hdl]

/-- Witness for C2: the pre-existing target file holds the byte `[7]`,
whose (abstract) digest equals the manifest checksum "abc"; the
download is performed anyway. -/
theorem C2_checksum_stub_forces_download_witness :
    (Koneksi.monitor.restoreFile (fun _ => some [7]) (fun _ => some [7])
        { filePath := "f.txt", fileID := "id1", size := 1, checksum := "abc",
          backupTime := 0, permissions := 420, compressed := false }
        "t").downloads = 1 :=
  C2_checksum_stub_forces_download (fun _ => "abc")
    (fun _ => some [7]) (fun _ => some [7])
    { filePath := "f.txt", fileID := "id1", size := 1, checksum := "abc",
      backupTime := 0, permissions := 420, compressed := false }
    "t" [7] rfl rfl (by decide)

/-- C10: when the entry is not skipped, the bytes written to the
target path are exactly the downloaded bytes, with the manifest
permissions; and the whole `restoreFile` outcome is independent of the
entry's `Compressed` flag — no inverse transform is ever applied. -/
theorem C10_restore_writes_downloaded_bytes
    (fsFiles download : String → Option (List Nat))
    (entry : Koneksi.monitor.FileManifestEntry) (targetDir : String)
    (fileData : List Nat)
    (hnofile : fsFiles (targetDir ++ "/" ++ Koneksi.monitor.baseName entry.filePath) =
      none)
    (hdl : download entry.fileID = some fileData) :
    (Koneksi.monitor.restoreFile fsFiles download entry targetDir).written =
      some { path := targetDir ++ "/" ++ Koneksi.monitor.baseName entry.filePath,
             bytes := fileData, perms := entry.permissions }
    ∧ ∀ b, Koneksi.monitor.restoreFile fsFiles download
        { entry with compressed := b } targetDir =
      Koneksi.monitor.restoreFile fsFiles download entry targetDir := by
  have hfe : Koneksi.monitor.fileExists fsFiles
      (targetDir ++ "/" ++ Koneksi.monitor.baseName entry.filePath) entry.checksum =
      false := by
    rw [Koneksi.monitor.fileExists, hnofile]
  constructor
  · rw [Koneksi.monitor.restoreFile, if_neg (by simp [hfe]), hdl]
  · intro b
    rfl

/-- Witness for C10: entry "f.txt" restored into an empty "t"; the
downloaded bytes `[1, 2]` land on disk unchanged. -/
theorem C10_restore_writes_downloaded_bytes_witness :
    (Koneksi.monitor.restoreFile (fun _ => none) (fun _ => some [1, 2])
        { filePath := "f.txt", fileID := "id2", size := 2, checksum := "c2",
          backupTime := 0, permissions := 384, compressed := true }
        "t").written =
      some { path := "t" ++ "/" ++ Koneksi.monitor.baseName "f.txt",
             bytes := [1, 2], perms := 384 } :=
  (C10_restore_writes_downloaded_bytes (fun _ => none) (fun _ => some [1, 2])
    { filePath := "f.txt", fileID := "id2", size := 2, checksum := "c2",
      backupTime := 0, permissions := 384, compressed := true }
    "t" [1, 2] rfl rfl).1

/-- C9 counterexample: the retry policy does not cover uploads.  With
a transport whose first attempt fails with a connection error and
whose second attempt returns 200, and `retryCount = 3`, `doRequest`
retries and succeeds after 2 attempts (sleeping 1 second), but
`UploadFile` makes exactly one attempt and fails — no retry happens. -/
theorem C9_upload_no_retry_counterexample :
    Koneksi.api.UploadFile
        (fun i => if i = 0 then Koneksi.api.HttpOutcome.connFail
          else Koneksi.api.HttpOutcome.status 200) = (none, 1)
    ∧ Koneksi.api.doRequest 3
        (fun i => if i = 0 then Koneksi.api.HttpOutcome.connFail
          else Koneksi.api.HttpOutcome.status 200) =
      { response := some 200, attempts := 2, sleeps := [1] } := by
  refine ⟨rfl, ?_⟩
  decide

/-- C9 (amended): the retry policy holds for the operations routed
through `doRequest` (download, health check, directory calls): a `4xx`
response on the first attempt returns immediately with one transport
call and no sleep; when every attempt fails transiently (connection
failure or `5xx`), the loop makes exactly `retryCount + 1` attempts
with backoff sleeps of `i²` seconds before retry `i`, then errors.
`UploadFile`, however, always makes exactly one transport call and
turns a connection failure into an immediate error — uploads are not
retried. -/
theorem C9_retry_policy :
    (∀ (rc : Nat) (oracle : Nat → Koneksi.api.HttpOutcome) (c : Nat),
      oracle 0 = Koneksi.api.HttpOutcome.status c → 400 ≤ c → c < 500 →
      Koneksi.api.doRequest rc oracle =
        { response := some c, attempts := 1, sleeps := [] })
    ∧ (∀ (rc : Nat) (oracle : Nat → Koneksi.api.HttpOutcome),
      (∀ j, j ≤ rc → Koneksi.api.isTransient (oracle j) = true) →
      Koneksi.api.doRequest rc oracle =
        { response := none, attempts := rc + 1,
          sleeps := (List.range' 1 rc).map (fun j => j * j) })
    ∧ (∀ oracle : Nat → Koneksi.api.HttpOutcome, (Koneksi.api.UploadFile oracle).2 = 1)
    ∧ (∀ oracle : Nat → Koneksi.api.HttpOutcome,
      oracle 0 = Koneksi.api.HttpOutcome.connFail →
      (Koneksi.api.UploadFile oracle).1 = none) := by
  refine ⟨Koneksi.api.doRequest_clientError, Koneksi.api.doRequest_transient, ?_, ?_⟩
  · intro oracle
    cases h : oracle 0 <;> simp [Koneksi.api.UploadFile, h]
  · intro oracle h
    simp [Koneksi.api.UploadFile, h]

end Koneksi.claims
